import Mathlib

/-
Verification development for the QUEENS repository.

Part 1 embeds `queens/stochastic_optimizers/_stochastic_optimizer.py`
(the stochastic optimizer core).  Because the claims about this subsystem
talk about NaN handling (`np.nan_to_num`, the NaN check in
`_check_if_done`), the scalar type `F` models an IEEE-754 double as one of
NaN, +inf, -inf or an exact real number (no rounding is modelled).

Part 2 embeds `pqueens/models/bmfmc_model.py` (the BMFMC statistical
engine) over plain real numbers.
-/

noncomputable section

/-- Scalar model of a floating-point value: NaN, plus/minus infinity or a
finite real number. -/
inductive F where
  | nan : F
  | pinf : F
  | ninf : F
  | fin : ℝ → F

namespace F

/-- Predicate `np.isnan` on a scalar. -/
def isnan : F → Bool
  | nan => true
  | _ => false

/-- Negation of a scalar. -/
def neg : F → F
  | nan => nan
  | pinf => ninf
  | ninf => pinf
  | fin x => fin (-x)

/-- Addition with IEEE-style NaN/infinity propagation. -/
def add : F → F → F
  | nan, _ => nan
  | _, nan => nan
  | pinf, ninf => nan
  | ninf, pinf => nan
  | pinf, _ => pinf
  | _, pinf => pinf
  | ninf, _ => ninf
  | _, ninf => ninf
  | fin x, fin y => fin (x + y)

/-- Subtraction. -/
def sub (a b : F) : F := add a (neg b)

/-- Multiplication with IEEE-style NaN/infinity propagation
(infinity times zero is NaN). -/
def mul : F → F → F
  | nan, _ => nan
  | _, nan => nan
  | pinf, pinf => pinf
  | pinf, ninf => ninf
  | ninf, pinf => ninf
  | ninf, ninf => pinf
  | pinf, fin y => if 0 < y then pinf else if y < 0 then ninf else nan
  | fin x, pinf => if 0 < x then pinf else if x < 0 then ninf else nan
  | ninf, fin y => if 0 < y then ninf else if y < 0 then pinf else nan
  | fin x, ninf => if 0 < x then ninf else if x < 0 then pinf else nan
  | fin x, fin y => fin (x * y)

/-- Division with IEEE-style NaN/infinity propagation: a nonzero finite
number divided by zero gives a signed infinity, zero divided by zero gives
NaN, a finite number divided by an infinity gives zero. -/
def div : F → F → F
  | nan, _ => nan
  | _, nan => nan
  | pinf, pinf => nan
  | pinf, ninf => nan
  | ninf, pinf => nan
  | ninf, ninf => nan
  | pinf, fin y => if 0 ≤ y then pinf else ninf
  | ninf, fin y => if 0 ≤ y then ninf else pinf
  | fin _, pinf => fin 0
  | fin _, ninf => fin 0
  | fin x, fin y =>
      if y = 0 then (if x = 0 then nan else if 0 < x then pinf else ninf)
      else fin (x / y)

/-- Absolute value. -/
def abs : F → F
  | nan => nan
  | pinf => pinf
  | ninf => pinf
  | fin x => fin |x|

/-- Square root (NaN on negative arguments). -/
def sqrt : F → F
  | nan => nan
  | pinf => pinf
  | ninf => nan
  | fin x => if x < 0 then nan else fin (Real.sqrt x)

/-- Comparison `a <= b`; any comparison with NaN is false. -/
def le : F → F → Bool
  | nan, _ => false
  | _, nan => false
  | ninf, _ => true
  | _, pinf => true
  | pinf, _ => false
  | _, ninf => false
  | fin x, fin y => decide (x ≤ y)

/-- Comparison `a < b`; any comparison with NaN is false. -/
def lt : F → F → Bool
  | nan, _ => false
  | _, nan => false
  | pinf, _ => false
  | ninf, ninf => false
  | ninf, _ => true
  | _, pinf => true
  | _, ninf => false
  | fin x, fin y => decide (x < y)

/-- numpy `maximum` (propagates NaN). -/
def fmax : F → F → F
  | nan, _ => nan
  | _, nan => nan
  | pinf, _ => pinf
  | _, pinf => pinf
  | ninf, b => b
  | a, ninf => a
  | fin x, fin y => fin (max x y)

/-- numpy `minimum` (propagates NaN). -/
def fmin : F → F → F
  | nan, _ => nan
  | _, nan => nan
  | ninf, _ => ninf
  | _, ninf => ninf
  | pinf, b => b
  | a, pinf => a
  | fin x, fin y => fin (min x y)

/-- Natural logarithm (numpy `log`: NaN on negative arguments, minus
infinity at zero). -/
def log : F → F
  | nan => nan
  | pinf => pinf
  | ninf => nan
  | fin x => if x < 0 then nan else if x = 0 then ninf else fin (Real.log x)

/-- Exponential (numpy `exp`: zero at minus infinity). -/
def exp : F → F
  | nan => nan
  | pinf => pinf
  | ninf => fin 0
  | fin x => fin (Real.exp x)

end F

/-- Largest finite double, the value `np.nan_to_num` substitutes for +inf. -/
def maxFloat : ℝ := 1.7976931348623157e308

/-- `np.nan_to_num`: NaN becomes 0, plus/minus infinity becomes the
largest/smallest finite double, finite values are unchanged. -/
def nan_to_num : F → F
  | F.nan => F.fin 0
  | F.pinf => F.fin maxFloat
  | F.ninf => F.fin (-maxFloat)
  | F.fin x => F.fin x

/-- Sum of a list of scalars, as accumulated by `np.sum` starting at 0. -/
def sumF (l : List F) : F := l.foldl F.add (F.fin 0)

/-- Modelled from the spec: the L2 norm helper of the norm/decay utilities
(`l2_norm` in `queens/utils/iterative_averaging.py`, a file not included
in the sources): square root of the sum of squared components, divided by
the square root of the component count when `averaged` is set. -/
def l2_norm (v : List F) (averaged : Bool) : F :=
  let s := F.sqrt (sumF (v.map (fun x => F.mul x x)))
  if averaged then F.div s (F.sqrt (F.fin (v.length : ℝ))) else s

/-- Modelled from the spec: the L1 norm helper of the norm/decay utilities
(`l1_norm` in `queens/utils/iterative_averaging.py`, a file not included
in the sources): sum of absolute component values, divided by the
component count when `averaged` is set. -/
def l1_norm (v : List F) (averaged : Bool) : F :=
  let s := sumF (v.map F.abs)
  if averaged then F.div s (F.fin (v.length : ℝ)) else s

/-- Modelled from the spec: the relative-change helper of the norm/decay
utilities (`relative_change` in `queens/utils/iterative_averaging.py`, a
file not included in the sources): norm of the parameter increment
relative to the norm of the old parameters. -/
def relative_change (old_parameters new_parameters : List F)
    (norm : List F → F) : F :=
  F.div (norm (List.zipWith F.sub new_parameters old_parameters))
    (norm old_parameters)

/-- `clip_by_value` from `_stochastic_optimizer.py`: `np.nan_to_num`
followed by `np.clip(gradient, -threshold, threshold)` (numpy clip takes
the maximum with the lower bound and then the minimum with the upper
bound). -/
def clip_by_value (gradient : List F) (threshold : F) : List F :=
  let g := gradient.map nan_to_num
  g.map (fun x => F.fmin (F.fmax x (F.neg threshold)) threshold)

/-- `clip_by_l2_norm` from `_stochastic_optimizer.py`: `np.nan_to_num`,
then if the L2 norm of the gradient exceeds the threshold, divide the
gradient by `norm / threshold`. -/
def clip_by_l2_norm (gradient : List F) (l2_norm_threshold : F) : List F :=
  let g := gradient.map nan_to_num
  let gradient_l2_norm := l2_norm g false
  if F.lt l2_norm_threshold gradient_l2_norm then
    g.map (fun x => F.div x (F.div gradient_l2_norm l2_norm_threshold))
  else g

/-- `StochasticOptimizer.clip_gradient`: clip by value and then by
L2 norm. -/
def clip_gradient (clip_by_value_threshold clip_by_l2_norm_threshold : F)
    (gradient : List F) : List F :=
  clip_by_l2_norm (clip_by_value gradient clip_by_value_threshold)
    clip_by_l2_norm_threshold

/-- The mutable attributes of `StochasticOptimizer`.  `precoefficient` is
+1 for maximization and -1 for minimization. -/
structure OptState where
  learning_rate : F
  precoefficient : ℤ
  rel_l1_change_threshold : F
  rel_l2_change_threshold : F
  clip_by_l2_norm_threshold : F
  clip_by_value_threshold : F
  max_iteration : ℕ
  iteration : ℕ
  done : Bool
  rel_l2_change : F
  rel_l1_change : F
  current_variational_parameters : List F
  current_gradient_value : List F

/-- `StochasticOptimizer.do_single_iteration`: the parameter update
`p <- p + precoefficient * learning_rate * gradient` together with the
iteration-count increment. -/
def do_single_iteration (s : OptState) (gradient : List F) : OptState :=
  { s with
    current_variational_parameters :=
      List.zipWith
        (fun p g =>
          F.add p (F.mul (F.mul (F.fin (s.precoefficient : ℝ)) s.learning_rate) g))
        s.current_variational_parameters gradient
    iteration := s.iteration + 1 }

/-- `StochasticOptimizer._compute_rel_change`: the pair of averaged
relative L2 and L1 changes between old and new parameters. -/
def compute_rel_change (old_parameters new_parameters : List F) : F × F :=
  (relative_change old_parameters new_parameters (fun x => l2_norm x true),
   relative_change old_parameters new_parameters (fun x => l1_norm x true))

/-- The convergence test of `StochasticOptimizer._check_if_done`:
both relative changes at or below their thresholds, or the iteration
count at or above the maximum. -/
def done_flag (s : OptState) : Bool :=
  (F.le s.rel_l2_change s.rel_l2_change_threshold &&
    F.le s.rel_l1_change s.rel_l1_change_threshold) ||
  decide (s.max_iteration ≤ s.iteration)

/-- `StochasticOptimizer._check_if_done`: raise a `ValueError` when any
variational parameter is NaN, otherwise set the `done` flag. -/
def check_if_done (s : OptState) : Except String OptState :=
  if s.current_variational_parameters.any F.isnan then
    Except.error "At least one of the variational parameters is NaN"
  else Except.ok { s with done := done_flag s }

/-- Result of one `__next__` call of the optimizer generator:
either a `StopIteration` signal or the yielded parameter vector. -/
inductive NextOutcome where
  | stopIteration : NextOutcome
  | yielded : List F → NextOutcome

/-- The body of `StochasticOptimizer.__next__` up to (but not including)
the `_check_if_done` call: gradient evaluation, optional learning-rate
decay, clipping, the scheme-specific transform (a parameter here, since
the concrete subclasses are external), the parameter update and the
relative-change computation. -/
def step_state (gradient_fn : List F → List F)
    (learning_rate_decay : Option (F → List F → List F → F))
    (scheme_specific_gradient : List F → List F) (s : OptState) : OptState :=
  let old_parameters := s.current_variational_parameters
  let current_gradient := gradient_fn s.current_variational_parameters
  let lr :=
    match learning_rate_decay with
    | some decay => decay s.learning_rate s.current_variational_parameters current_gradient
    | none => s.learning_rate
  let s1 := { s with learning_rate := lr }
  let clipped :=
    clip_gradient s.clip_by_value_threshold s.clip_by_l2_norm_threshold current_gradient
  let transformed := scheme_specific_gradient clipped
  let s2 := { s1 with current_gradient_value := transformed }
  let s3 := do_single_iteration s2 transformed
  let rel := compute_rel_change old_parameters s3.current_variational_parameters
  { s3 with rel_l2_change := rel.1, rel_l1_change := rel.2 }

/-- `StochasticOptimizer.__next__`: raise `StopIteration` (a non-error
end-of-sequence signal, distinct from the `ValueError` branch) when
`done` is already true; otherwise run one optimization step and return
the updated parameters. -/
def nextStep (gradient_fn : List F → List F)
    (learning_rate_decay : Option (F → List F → List F → F))
    (scheme_specific_gradient : List F → List F) (s : OptState) :
    Except String (NextOutcome × OptState) :=
  if s.done then Except.ok (NextOutcome.stopIteration, s)
  else
    (check_if_done (step_state gradient_fn learning_rate_decay scheme_specific_gradient s)).map
      (fun s5 => (NextOutcome.yielded s5.current_variational_parameters, s5))

/-
Part 2: the BMFMC statistical engine from `pqueens/models/bmfmc_model.py`,
embedded over exact real numbers.  The probabilistic-mapping collaborator
(`self.interface`) and the high-fidelity model are external, so the
posterior covariance matrix `k_post` and the high-fidelity model are
function parameters.
-/

/-- The Gaussian probability density `scipy.stats.norm.pdf(x, loc, scale)`. -/
def norm_pdf (x loc scale : ℝ) : ℝ :=
  Real.exp (-(((x - loc) / scale) ^ 2) / 2) / (scale * Real.sqrt (2 * Real.pi))

/-- `BMFMCModel._calculate_p_yhf_mean`: for each support point, the sum
over all Monte-Carlo evaluation points of the Gaussian density with the
predicted mean and the square root of the predicted variance, scaled by
`1 / m_f_mc.size`.  An empty evaluation set makes `1 / self.m_f_mc.size`
raise a `ZeroDivisionError` in Python. -/
def calculate_p_yhf_mean (y_pdf_support m_f_mc var_y_mc : List ℝ) :
    Except String (List ℝ) :=
  if m_f_mc.length = 0 then Except.error "ZeroDivisionError"
  else
    Except.ok
      (y_pdf_support.map (fun y =>
        (1 / (m_f_mc.length : ℝ)) *
          ((m_f_mc.zip var_y_mc).map
            (fun mv => norm_pdf y mv.1 (Real.sqrt mv.2))).sum))

/-- One pair's bivariate-normal density contribution at the diagonal
support point `(y, y)` in `BMFMCModel._calculate_p_yhf_var`: the 2x2
covariance matrix `[[var1, cov], [cov, var2]]` with the
negative-determinant clamp (determinant floored at 1e-6 and the
cross-covariance shrunk by 0.95), the quadratic form of the inverse, the
normalization constant, and the exponent clamped at 40. -/
def pair_density (y mean1 mean2 var1 var2 cov0 : ℝ) : ℝ :=
  let det_sigma0 := var1 * var2 - cov0 ^ 2
  let det_sigma := if det_sigma0 < 0 then 1e-6 else det_sigma0
  let covariance := if det_sigma0 < 0 then 0.95 * cov0 else cov0
  let d1 := y - mean1
  let d2 := y - mean2
  let a1 := d1 * ((1 / det_sigma) * var2) + d2 * ((1 / det_sigma) * (-covariance))
  let a2 := d1 * ((1 / det_sigma) * (-covariance)) + d2 * ((1 / det_sigma) * var1)
  let b := a1 * d1 + a2 * d2
  let c := Real.sqrt (4 * Real.pi ^ 2 * det_sigma)
  let args := -0.5 * b + Real.log (1 / c)
  Real.exp (min args 40)

/-- The same loop-body computation as `pair_density`, under explicit
floating-point semantics (the scalar type `F` with NaN/infinity
propagation).  Only `det_sigma < 0` is clamped, so when the determinant
is exactly zero (e.g. duplicated Monte-Carlo points), `1 / det_sigma`
gives infinity, a zero times it gives NaN, NaN survives the
`args > 40` clamp (NaN comparisons are false), and `np.exp(NaN)` is NaN;
for every nonzero determinant the computation stays finite and agrees
with `pair_density`. -/
def pair_density_fp (y mean1 mean2 var1 var2 cov0 : ℝ) : F :=
  let det_sigma0 := var1 * var2 - cov0 ^ 2
  let det_sigma := if det_sigma0 < 0 then 1e-6 else det_sigma0
  let covariance := if det_sigma0 < 0 then 0.95 * cov0 else cov0
  let d1 := y - mean1
  let d2 := y - mean2
  let inv_det := F.div (F.fin 1) (F.fin det_sigma)
  let m00 := F.mul inv_det (F.fin var2)
  let m01 := F.mul inv_det (F.fin (-covariance))
  let m10 := F.mul inv_det (F.fin (-covariance))
  let m11 := F.mul inv_det (F.fin var1)
  let a1 := F.add (F.mul (F.fin d1) m00) (F.mul (F.fin d2) m10)
  let a2 := F.add (F.mul (F.fin d1) m01) (F.mul (F.fin d2) m11)
  let b := F.add (F.mul a1 (F.fin d1)) (F.mul a2 (F.fin d2))
  let c := F.sqrt (F.fin (4 * Real.pi ^ 2 * det_sigma))
  let args := F.add (F.mul (F.fin (-0.5)) b) (F.log (F.div (F.fin 1) c))
  let clamped := if F.lt (F.fin 40) args then F.fin 40 else args
  F.exp clamped

/-- The running state of the pairwise double loop in
`BMFMCModel._calculate_p_yhf_var`: the accumulated density grid
`yhf_pdf_grid`, the pair counter `i` (initialized to 1 and incremented
after every pair) and the `p_yhf_var` attribute (possibly still holding
its prior value if no pair has been processed). -/
structure VarLoopState where
  yhf_pdf_grid : List ℝ
  i : ℕ
  p_yhf_var : Option (List ℝ)

/-- The inner loop of `BMFMCModel._calculate_p_yhf_var` for a fixed outer
index `num1` with predictions `(mean1, var1)`: `pairs` enumerates
`zip(f_mean_pred[num1+1:], yhf_var_pred[num1+1:])`, the loop body sets
`num2 = num1 + num2` (the enumeration index), reads the cross-covariance
`k_post[num1, num2]`, adds the pair's density vector to the grid,
increments `i`, and assigns
`p_yhf_var = 1/(i-1) * yhf_pdf_grid - 0.9995 * p_yhf_mean**2`. -/
def var_inner_loop (y_pdf_support : List ℝ) (k_post : ℕ → ℕ → ℝ)
    (p_yhf_mean : List ℝ) (num1 : ℕ) (mean1 var1 : ℝ) :
    List (ℕ × (ℝ × ℝ)) → VarLoopState → VarLoopState
  | [], st => st
  | (num2_enum, (mean2, var2)) :: rest, st =>
    let num2 := num1 + num2_enum
    let covariance := k_post num1 num2
    let grid :=
      List.zipWith (· + ·) st.yhf_pdf_grid
        (y_pdf_support.map (fun y => pair_density y mean1 mean2 var1 var2 covariance))
    let i := st.i + 1
    let pvar :=
      some
        (List.zipWith (fun g m => 1 / ((i : ℝ) - 1) * g - 0.9995 * m ^ 2) grid
          p_yhf_mean)
    var_inner_loop y_pdf_support k_post p_yhf_mean num1 mean1 var1 rest
      ⟨grid, i, pvar⟩

/-- The outer loop of `BMFMCModel._calculate_p_yhf_var`: `entries`
enumerates `zip(f_mean_pred, yhf_var_pred)`; each entry `num1` runs the
inner loop over the enumerated tails `f_mean_pred[num1+1:]` and
`yhf_var_pred[num1+1:]`. -/
def var_outer_loop (y_pdf_support : List ℝ) (k_post : ℕ → ℕ → ℝ)
    (p_yhf_mean f_mean_pred yhf_var_pred : List ℝ) :
    List (ℕ × (ℝ × ℝ)) → VarLoopState → VarLoopState
  | [], st => st
  | (num1, (mean1, var1)) :: rest, st =>
    let pairs :=
      List.enum ((f_mean_pred.drop (num1 + 1)).zip (yhf_var_pred.drop (num1 + 1)))
    var_outer_loop y_pdf_support k_post p_yhf_mean f_mean_pred yhf_var_pred rest
      (var_inner_loop y_pdf_support k_post p_yhf_mean num1 mean1 var1 pairs st)

/-- `BMFMCModel._calculate_p_yhf_var` (with `spacing = 1`, so the
stride-1 slicing of the predictions and of `k_post` is the identity):
run the pairwise double loop starting from a zero grid, `i = 1` and the
prior value of the `p_yhf_var` attribute, and return the final value of
`p_yhf_var`. -/
def calculate_p_yhf_var (y_pdf_support f_mean_pred yhf_var_pred : List ℝ)
    (k_post : ℕ → ℕ → ℝ) (p_yhf_mean : List ℝ)
    (p_yhf_var_prior : Option (List ℝ)) : Option (List ℝ) :=
  (var_outer_loop y_pdf_support k_post p_yhf_mean f_mean_pred yhf_var_pred
      (List.enum (f_mean_pred.zip yhf_var_pred))
      ⟨y_pdf_support.map (fun _ => 0), 1, p_yhf_var_prior⟩).p_yhf_var

/-- `BMFMCModel.compute_pyhf_statistics`: compute `p_yhf_mean`, then
compute `p_yhf_var` when the predictive-variance flag is set (otherwise
set it to `None`).  Returns the resulting pair
`(p_yhf_mean, p_yhf_var)`. -/
def compute_pyhf_statistics (predictive_var_bool : Bool)
    (y_pdf_support m_f_mc var_y_mc : List ℝ) (k_post : ℕ → ℕ → ℝ)
    (p_yhf_var_prior : Option (List ℝ)) :
    Except String (List ℝ × Option (List ℝ)) := do
  let p_yhf_mean ← calculate_p_yhf_mean y_pdf_support m_f_mc var_y_mc
  if predictive_var_bool then
    pure (p_yhf_mean,
      calculate_p_yhf_var y_pdf_support m_f_mc var_y_mc k_post p_yhf_mean
        p_yhf_var_prior)
  else pure (p_yhf_mean, none)

/-- `BMFMCModel.get_hf_training_data`, reference-data branch: for each
training input row, find the first row of `X_mc` equal to it
(`np.where(np.all(X_mc == X_train[i, :], axis=1))[0][0]`, an `IndexError`
when there is no match) and index `Y_HF_mc` with it (an `IndexError` when
out of range). -/
def match_training_rows (X_mc : List (List ℝ)) (Y_HF_mc : List ℝ) :
    List (List ℝ) → Except String (List ℝ)
  | [] => Except.ok []
  | row :: rest =>
    match X_mc.findIdx? (fun r => decide (r = row)) with
    | none => Except.error "IndexError"
    | some index =>
      match Y_HF_mc.get? index with
      | none => Except.error "IndexError"
      | some y => (match_training_rows X_mc Y_HF_mc rest).map (fun ys => y :: ys)

/-- `BMFMCModel.get_hf_training_data`: after checking that `X_train` is
set, either run the high-fidelity model on `X_train` (when a
high-fidelity model is present and no reference Monte-Carlo data is),
or match the training rows against `X_mc` and index the reference data
(when reference data is present and no high-fidelity model is), or raise
a `RuntimeError`. -/
def get_hf_training_data (X_train : Option (List (List ℝ)))
    (X_mc : List (List ℝ)) (Y_HF_mc : Option (List ℝ))
    (high_fidelity_model : Option (List (List ℝ) → List ℝ)) :
    Except String (List ℝ) :=
  match X_train with
  | none =>
    Except.error "The training input X_train cannot be 'None'!"
  | some xt =>
    match high_fidelity_model, Y_HF_mc with
    | some model, none => Except.ok (model xt)
    | none, some yhf => match_training_rows X_mc yhf xt
    | _, _ =>
      Except.error
        "Please make sure to provide either a pickle file with high-fidelity Monte-Carlo data or an appropriate high-fidelity model!"

/-- A concrete optimizer state used to exercise the iteration protocol:
default (infinite) clipping thresholds, minimization, learning rate 1. -/
def sampleState : OptState where
  learning_rate := F.fin 1
  precoefficient := -1
  rel_l1_change_threshold := F.pinf
  rel_l2_change_threshold := F.pinf
  clip_by_l2_norm_threshold := F.pinf
  clip_by_value_threshold := F.pinf
  max_iteration := 1
  iteration := 0
  done := false
  rel_l2_change := F.fin 0
  rel_l1_change := F.fin 0
  current_variational_parameters := [F.fin 0]
  current_gradient_value := [F.fin 0]

/-- The finite real value produced by `np.nan_to_num` for each scalar
(0 for NaN, the largest/smallest finite double for the infinities). -/
def toR : F → ℝ
  | F.nan => 0
  | F.pinf => maxFloat
  | F.ninf => -maxFloat
  | F.fin x => x

/-
Theorems.
-/

/-- C6: once `done` is true, requesting a further iteration step yields
the `StopIteration` end-of-sequence signal (not an error), returns the
state completely unchanged, and does not depend on the caller-supplied
gradient function, learning-rate decay or gradient scheme (so none of
them is invoked). -/
theorem next_after_done_stops (g : List F → List F)
    (d : Option (F → List F → List F → F)) (sch : List F → List F)
    (s : OptState) (h : s.done = true) :
    nextStep g d sch s = Except.ok (NextOutcome.stopIteration, s) ∧
      ∀ (g' : List F → List F) (d' : Option (F → List F → List F → F))
        (sch' : List F → List F), nextStep g' d' sch' s = nextStep g d sch s := by
  constructor
  · simp [nextStep, h]
  · intro g' d' sch'
    simp [nextStep, h]

/-- Witness for C6 at a concrete converged state. -/
theorem next_after_done_stops_witness :
    ({ sampleState with done := true } : OptState).done = true ∧
      nextStep id none id { sampleState with done := true } =
        Except.ok (NextOutcome.stopIteration, { sampleState with done := true }) :=
  ⟨rfl, (next_after_done_stops id none id { sampleState with done := true } rfl).1⟩

/-- C7: a step taken from a non-done state raises the fatal
`ValueError` exactly when the parameter vector contains a NaN after the
parameter update, and otherwise completes, returning the updated
parameters. -/
theorem step_error_iff_nan (g : List F → List F)
    (d : Option (F → List F → List F → F)) (sch : List F → List F)
    (s : OptState) (h : s.done = false) :
    ((∃ e, nextStep g d sch s = Except.error e) ↔
      (step_state g d sch s).current_variational_parameters.any F.isnan = true) ∧
    ((step_state g d sch s).current_variational_parameters.any F.isnan = false →
      nextStep g d sch s =
        Except.ok
          (NextOutcome.yielded (step_state g d sch s).current_variational_parameters,
            { step_state g d sch s with done := done_flag (step_state g d sch s) })) := by
  rw [nextStep, if_neg (by simp [h])]
  rcases hc : (step_state g d sch s).current_variational_parameters.any F.isnan with _ | _
  · rw [check_if_done, if_neg (by simp [hc])]
    exact ⟨by simp [Except.map], fun _ => rfl⟩
  · rw [check_if_done, if_pos (by simp [hc])]
    exact ⟨by simp [Except.map], by simp⟩

/-- Witness for C7 at a concrete non-done state. -/
theorem step_error_iff_nan_witness :
    sampleState.done = false ∧
      (((∃ e, nextStep id none id sampleState = Except.error e) ↔
        (step_state id none id sampleState).current_variational_parameters.any F.isnan = true)) :=
  ⟨rfl, (step_error_iff_nan id none id sampleState rfl).1⟩

/-- C3: after an optimizer step that completes without error (from a
non-done state, with no NaN in the updated parameters), the resulting
state's relative changes are the relative L2/L1 changes of the parameter
vector, and its `done` flag is true exactly when both relative changes
are at or below their thresholds or the iteration count has reached the
maximum iteration count. -/
theorem done_flag_iff_convergence (g : List F → List F)
    (d : Option (F → List F → List F → F)) (sch : List F → List F)
    (s : OptState) (h1 : s.done = false)
    (h2 : (step_state g d sch s).current_variational_parameters.any F.isnan = false) :
    ∃ s', nextStep g d sch s =
        Except.ok (NextOutcome.yielded s'.current_variational_parameters, s') ∧
      s'.rel_l2_change =
        relative_change s.current_variational_parameters
          s'.current_variational_parameters (fun v => l2_norm v true) ∧
      s'.rel_l1_change =
        relative_change s.current_variational_parameters
          s'.current_variational_parameters (fun v => l1_norm v true) ∧
      (s'.done = true ↔
        ((F.le s'.rel_l2_change s'.rel_l2_change_threshold = true ∧
          F.le s'.rel_l1_change s'.rel_l1_change_threshold = true) ∨
          s'.max_iteration ≤ s'.iteration)) := by
  refine ⟨{ step_state g d sch s with done := done_flag (step_state g d sch s) }, ?_, ?_, ?_, ?_⟩
  · rw [nextStep, if_neg (by simp [h1]), check_if_done, if_neg (by simp [h2])]
    rfl
  · simp [step_state, do_single_iteration, compute_rel_change]
  · simp [step_state, do_single_iteration, compute_rel_change]
  · simp [done_flag, Bool.and_eq_true, Bool.or_eq_true, decide_eq_true_iff]

/-- Witness for C3 at a concrete state (with empty parameter vector, so
the no-NaN hypothesis evaluates directly). -/
theorem done_flag_iff_convergence_witness :
    ({ sampleState with current_variational_parameters := [] } : OptState).done = false ∧
      (step_state id none id
        { sampleState with current_variational_parameters := [] }).current_variational_parameters.any
          F.isnan = false ∧
      ∃ s', nextStep id none id { sampleState with current_variational_parameters := [] } =
          Except.ok (NextOutcome.yielded s'.current_variational_parameters, s') ∧
        s'.rel_l2_change =
          relative_change
            ({ sampleState with current_variational_parameters := [] } : OptState).current_variational_parameters
            s'.current_variational_parameters (fun v => l2_norm v true) ∧
        s'.rel_l1_change =
          relative_change
            ({ sampleState with current_variational_parameters := [] } : OptState).current_variational_parameters
            s'.current_variational_parameters (fun v => l1_norm v true) ∧
        (s'.done = true ↔
          ((F.le s'.rel_l2_change s'.rel_l2_change_threshold = true ∧
            F.le s'.rel_l1_change s'.rel_l1_change_threshold = true) ∨
            s'.max_iteration ≤ s'.iteration)) := by
  refine ⟨rfl, ?_, ?_⟩
  · simp [step_state, do_single_iteration]
  · exact done_flag_iff_convergence id none id _ rfl (by simp [step_state, do_single_iteration])

/-- Every scalar maps to a finite value under `nan_to_num`. -/
theorem nan_to_num_eq_fin_toR (x : F) : nan_to_num x = F.fin (toR x) := by
  cases x <;> rfl

/-- Folding `F.add` over finitely embedded reals is real summation. -/
theorem foldl_add_map_fin (l : List ℝ) (a : ℝ) :
    (l.map F.fin).foldl F.add (F.fin a) = F.fin (a + l.sum) := by
  induction l generalizing a with
  | nil => simp
  | cons x xs ih =>
    simp only [List.map_cons, List.foldl_cons, F.add, ih, List.sum_cons]
    congr 1
    ring

/-- Summing finitely embedded reals is real summation. -/
theorem sumF_map_fin (l : List ℝ) : sumF (l.map F.fin) = F.fin l.sum := by
  simpa using foldl_add_map_fin l 0

/-- A list sum of squares is non-negative. -/
theorem sumsq_nonneg (l : List ℝ) : 0 ≤ (l.map (fun r => r * r)).sum := by
  refine List.sum_nonneg ?_
  intro x hx
  obtain ⟨r, -, rfl⟩ := List.mem_map.1 hx
  exact mul_self_nonneg r

/-- Square root of a finitely embedded non-negative real. -/
theorem sqrt_fin_of_nonneg {a : ℝ} (h : 0 ≤ a) :
    F.sqrt (F.fin a) = F.fin (Real.sqrt a) := by
  rw [F.sqrt, if_neg (not_lt.2 h)]

/-- The comparison `F.le` on finitely embedded reals. -/
theorem le_fin_fin {a b : ℝ} : F.le (F.fin a) (F.fin b) = true ↔ a ≤ b := by
  simp [F.le]

/-- The unaveraged L2 norm of a finitely embedded real vector. -/
theorem l2_norm_map_fin (l : List ℝ) :
    l2_norm (l.map F.fin) false =
      F.fin (Real.sqrt ((l.map (fun r => r * r)).sum)) := by
  have hm : (l.map F.fin).map (fun x => F.mul x x) =
      (l.map (fun r => r * r)).map F.fin := by
    simp only [List.map_map]
    rfl
  rw [l2_norm]
  simp only [Bool.false_eq_true, if_false, hm, sumF_map_fin,
    sqrt_fin_of_nonneg (sumsq_nonneg l)]

/-- `getD` on a finitely embedded real vector. -/
theorem getD_map_fin (l : List ℝ) (i : ℕ) :
    (l.map F.fin).getD i (F.fin 0) = F.fin (l.getD i 0) := by
  simp only [List.getD_eq_getElem?_getD, List.getElem?_map]
  cases l[i]? <;> rfl

/-- `clip_by_value` on a finitely embedded real vector clamps each
component into the interval from `-c` to `c`. -/
theorem clip_by_value_map_fin (l : List ℝ) (c : ℝ) :
    clip_by_value (l.map F.fin) (F.fin c) =
      (l.map (fun r => min (max r (-c)) c)).map F.fin := by
  simp only [clip_by_value, List.map_map]
  rfl

/-- Behaviour of `clip_by_l2_norm` on a finitely embedded real vector
with a non-negative (possibly infinite) threshold: the output is again a
finitely embedded real vector, no component magnitude grows, and for a
finite threshold the output L2 norm is at most the threshold. -/
theorem clip_by_l2_norm_map_fin (l : List ℝ) (t : F)
    (ht : F.le (F.fin 0) t = true) :
    ∃ out : List ℝ,
      clip_by_l2_norm (l.map F.fin) t = out.map F.fin ∧
      out.length = l.length ∧
      (∀ i, |out.getD i 0| ≤ |l.getD i 0|) ∧
      (∀ c : ℝ, t = F.fin c → Real.sqrt ((out.map (fun r => r * r)).sum) ≤ c) := by
  have hid : (l.map F.fin).map nan_to_num = l.map F.fin := by
    simp only [List.map_map]
    rfl
  rw [clip_by_l2_norm]
  simp only [hid, l2_norm_map_fin]
  set Q : ℝ := (l.map (fun r => r * r)).sum with hQ
  have hQ0 : 0 ≤ Q := sumsq_nonneg l
  have hS0 : 0 ≤ Real.sqrt Q := Real.sqrt_nonneg Q
  cases t with
  | nan => simp [F.le] at ht
  | ninf => simp [F.le] at ht
  | pinf =>
    rw [show F.lt F.pinf (F.fin (Real.sqrt Q)) = false from rfl]
    exact ⟨l, by simp, rfl, fun i => le_refl _, fun c hc => by cases hc⟩
  | fin c =>
    have hc0 : 0 ≤ c := le_fin_fin.1 ht
    rcases hlt : F.lt (F.fin c) (F.fin (Real.sqrt Q)) with _ | _
    · simp only [Bool.false_eq_true, if_false]
      refine ⟨l, rfl, rfl, fun i => le_refl _, fun c' hc' => ?_⟩
      obtain rfl : c = c' := by injection hc'
      have : ¬(c < Real.sqrt Q) := by simpa [F.lt] using hlt
      exact not_lt.1 this
    · have hcS : c < Real.sqrt Q := by simpa [F.lt] using hlt
      have hSpos : 0 < Real.sqrt Q := lt_of_le_of_lt hc0 hcS
      simp only [if_true]
      by_cases hczero : c = 0
      · subst hczero
        have hdiv : F.div (F.fin (Real.sqrt Q)) (F.fin 0) = F.pinf := by
          rw [F.div, if_pos rfl, if_neg (ne_of_gt hSpos), if_pos hSpos]
        rw [hdiv]
        refine ⟨l.map (fun _ => 0), ?_, by simp, ?_, ?_⟩
        · simp only [List.map_map]
          rfl
        · intro i
          simp only [List.getD_eq_getElem?_getD, List.getElem?_map]
          cases l[i]? <;> simp [abs_nonneg]
        · intro c' hc'
          obtain rfl : c' = 0 := by injection hc'.symm
          have hz : ((l.map fun _ => (0:ℝ)).map fun r => r * r).sum = 0 := by
            have hmz : (l.map fun _ => (0:ℝ)).map (fun r => r * r) =
                l.map fun _ => (0:ℝ) := by
              simp
            rw [hmz]
            exact List.sum_eq_zero (by simp)
          rw [hz, Real.sqrt_zero]
      · have hcpos : 0 < c := lt_of_le_of_ne hc0 (Ne.symm hczero)
        have hSc : 0 < Real.sqrt Q / c := div_pos hSpos hcpos
        have hdiv : F.div (F.fin (Real.sqrt Q)) (F.fin c) = F.fin (Real.sqrt Q / c) := by
          rw [F.div, if_neg hczero]
        rw [hdiv]
        refine ⟨l.map (fun r => r / (Real.sqrt Q / c)), ?_, by simp, ?_, ?_⟩
        · simp only [List.map_map]
          refine List.map_congr_left ?_
          intro r _
          show F.div (F.fin r) (F.fin (Real.sqrt Q / c)) = F.fin (r / (Real.sqrt Q / c))
          rw [F.div, if_neg (ne_of_gt hSc)]
        · intro i
          simp only [List.getD_eq_getElem?_getD, List.getElem?_map]
          cases hgi : l[i]? with
          | none => simp
          | some r =>
            simp only [Option.map_some', Option.getD_some]
            rw [abs_div, abs_of_pos hSc]
            have hge1 : 1 ≤ Real.sqrt Q / c := by
              rw [le_div_iff₀ hcpos, one_mul]
              exact le_of_lt hcS
            exact div_le_self (abs_nonneg r) hge1
        · intro c' hc'
          obtain rfl : c = c' := by injection hc'
          have hfun : ∀ r : ℝ, r / (Real.sqrt Q / c) = r * (c / Real.sqrt Q) := by
            intro r
            rw [div_div_eq_mul_div, mul_div_assoc]
          have hmap : (l.map (fun r => r / (Real.sqrt Q / c))).map (fun r => r * r) =
              l.map (fun r => (c / Real.sqrt Q) * (c / Real.sqrt Q) * (r * r)) := by
            simp only [List.map_map]
            refine List.map_congr_left ?_
            intro r _
            simp only [Function.comp_apply, hfun r]
            ring
          rw [hmap]
          have hsum : (l.map (fun r => (c / Real.sqrt Q) * (c / Real.sqrt Q) * (r * r))).sum =
              (c / Real.sqrt Q) * (c / Real.sqrt Q) * Q := by
            have := List.sum_map_mul_left l (fun r => r * r)
              ((c / Real.sqrt Q) * (c / Real.sqrt Q))
            simpa [mul_assoc] using this
          rw [hsum]
          have hk0 : 0 ≤ c / Real.sqrt Q := le_of_lt (div_pos hcpos hSpos)
          rw [show (c / Real.sqrt Q) * (c / Real.sqrt Q) * Q =
            (c / Real.sqrt Q) ^ 2 * Q by ring]
          rw [Real.sqrt_mul (sq_nonneg _), Real.sqrt_sq hk0,
            div_mul_cancel₀ c (ne_of_gt hSpos)]

/-- Replacing the NaN components of a vector by zero does not change its
image under `np.nan_to_num`. -/
theorem map_nan_to_num_replace (g : List F) :
    (g.map (fun x => if x.isnan = true then F.fin 0 else x)).map nan_to_num =
      g.map nan_to_num := by
  simp only [List.map_map]
  refine List.map_congr_left ?_
  intro x _
  cases x <;> rfl

/-- `clip_by_value` depends on its input only through `np.nan_to_num`. -/
theorem clip_by_value_congr (A B : List F) (t : F)
    (h : A.map nan_to_num = B.map nan_to_num) :
    clip_by_value A t = clip_by_value B t := by
  simp only [clip_by_value, h]

/-- `clip_by_l2_norm` depends on its input only through `np.nan_to_num`. -/
theorem clip_by_l2_norm_congr (A B : List F) (t : F)
    (h : A.map nan_to_num = B.map nan_to_num) :
    clip_by_l2_norm A t = clip_by_l2_norm B t := by
  simp only [clip_by_l2_norm, h]

/-- Any vector agrees with its finite `nan_to_num` image under
`np.nan_to_num`. -/
theorem map_nan_to_num_toR (B : List F) :
    ((B.map toR).map F.fin).map nan_to_num = B.map nan_to_num := by
  simp only [List.map_map]
  refine List.map_congr_left ?_
  intro x _
  cases x <;> rfl

/-- C9: `clip_by_value` and `clip_by_l2_norm` each treat a NaN gradient
component exactly like a zero component (the `np.nan_to_num` call maps
it to 0 before clipping), and for a non-negative L2-norm threshold the
gradient returned by `clip_gradient` never contains NaN, even when the
raw caller-supplied gradient does. -/
theorem clip_nan_components_to_zero (g : List F) (tv tn : F)
    (h : F.le (F.fin 0) tn = true) :
    clip_by_value g tv =
      clip_by_value (g.map (fun x => if x.isnan = true then F.fin 0 else x)) tv ∧
    clip_by_l2_norm g tn =
      clip_by_l2_norm (g.map (fun x => if x.isnan = true then F.fin 0 else x)) tn ∧
    ∀ x ∈ clip_gradient tv tn g, x.isnan = false := by
  refine ⟨clip_by_value_congr _ _ _ (map_nan_to_num_replace g).symm,
    clip_by_l2_norm_congr _ _ _ (map_nan_to_num_replace g).symm, ?_⟩
  intro x hx
  rw [clip_gradient,
    clip_by_l2_norm_congr _ ((clip_by_value g tv).map toR |>.map F.fin) tn
      (map_nan_to_num_toR (clip_by_value g tv)).symm] at hx
  obtain ⟨out, hout, -, -, -⟩ :=
    clip_by_l2_norm_map_fin ((clip_by_value g tv).map toR) tn h
  rw [hout] at hx
  obtain ⟨r, -, rfl⟩ := List.mem_map.1 hx
  rfl

/-- Witness for C9 with a NaN gradient component and the default
(infinite) thresholds. -/
theorem clip_nan_components_to_zero_witness :
    F.le (F.fin 0) F.pinf = true ∧
      ∀ x ∈ clip_gradient F.pinf F.pinf [F.nan], x.isnan = false :=
  ⟨rfl, (clip_nan_components_to_zero [F.nan] F.pinf F.pinf rfl).2.2⟩

/-- The componentwise clamp never increases a magnitude when the clamp
bound is non-negative. -/
theorem abs_clamp_le (r c : ℝ) (hc : 0 ≤ c) : |min (max r (-c)) c| ≤ |r| := by
  rcases le_total r (-c) with h | h
  · rw [max_eq_right h, min_eq_left (by linarith)]
    rw [abs_of_nonpos (by linarith), abs_of_nonpos (le_trans h (by linarith))]
    linarith
  · rcases le_total r c with h2 | h2
    · rw [max_eq_left h, min_eq_left h2]
    · rw [max_eq_left h, min_eq_right h2, abs_of_nonneg hc,
        abs_of_nonneg (le_trans hc h2)]
      exact h2

/-- Counterexample to C4 as stated: with the finite but negative
by-value threshold -1, `clip_gradient` maps the zero gradient `[0]` to
`[-1]`, so the first component's absolute value grows from 0 to 1. -/
theorem clip_gradient_negative_threshold_cex :
    clip_gradient (F.fin (-1)) (F.fin 5) [F.fin 0] = [F.fin (-1)] ∧
      F.le
        (F.abs ((clip_gradient (F.fin (-1)) (F.fin 5) [F.fin 0]).getD 0 (F.fin 0)))
        (F.abs (([F.fin 0] : List F).getD 0 (F.fin 0))) = false := by
  have h1 : clip_by_value [F.fin 0] (F.fin (-1)) = [F.fin (-1)] := by
    simp only [clip_by_value, List.map_cons, List.map_nil, nan_to_num, F.neg, F.fmax, F.fmin]
    norm_num
  have h2 : clip_gradient (F.fin (-1)) (F.fin 5) [F.fin 0] = [F.fin (-1)] := by
    rw [clip_gradient, h1, clip_by_l2_norm]
    simp only [List.map_cons, List.map_nil, nan_to_num, l2_norm, sumF, List.foldl_cons,
      List.foldl_nil, F.mul, F.add]
    norm_num [F.sqrt, Real.sqrt_one, F.lt]
  refine ⟨h2, ?_⟩
  rw [h2]
  simp only [List.getD_cons_zero, F.abs, F.le]
  norm_num

/-- C4 (amended): for every finite gradient vector and every pair of
finite NON-NEGATIVE thresholds, clipping by value and then by L2 norm
never increases any component's absolute value, and the resulting L2
norm is at most the norm threshold. -/
theorem clip_gradient_contraction (gr : List ℝ) (cv cn : ℝ)
    (h1 : 0 ≤ cv) (h2 : 0 ≤ cn) :
    (∀ i, F.le
        (F.abs ((clip_gradient (F.fin cv) (F.fin cn) (gr.map F.fin)).getD i (F.fin 0)))
        (F.abs ((gr.map F.fin).getD i (F.fin 0))) = true) ∧
      F.le (l2_norm (clip_gradient (F.fin cv) (F.fin cn) (gr.map F.fin)) false)
        (F.fin cn) = true := by
  rw [clip_gradient, clip_by_value_map_fin]
  obtain ⟨out, hout, hlen, habs, hnorm⟩ :=
    clip_by_l2_norm_map_fin (gr.map (fun r => min (max r (-cv)) cv)) (F.fin cn)
      (le_fin_fin.2 h2)
  rw [hout]
  constructor
  · intro i
    rw [getD_map_fin, getD_map_fin]
    show F.le (F.fin |out.getD i 0|) (F.fin |gr.getD i 0|) = true
    apply le_fin_fin.2
    refine le_trans (habs i) ?_
    have hclamp : (gr.map (fun r => min (max r (-cv)) cv)).getD i 0 =
        ((gr[i]?).map (fun r => min (max r (-cv)) cv)).getD 0 := by
      simp [List.getD_eq_getElem?_getD, List.getElem?_map]
    rw [hclamp]
    cases hgi : gr[i]? with
    | none => simp [List.getD_eq_getElem?_getD, hgi]
    | some r =>
      have hgd : gr.getD i 0 = r := by
        simp [List.getD_eq_getElem?_getD, hgi]
      rw [hgd]
      simpa using abs_clamp_le r cv h1
  · rw [l2_norm_map_fin]
    exact le_fin_fin.2 (hnorm cn rfl)

/-- Witness for C4 (amended) at a concrete gradient and thresholds. -/
theorem clip_gradient_contraction_witness :
    (0:ℝ) ≤ 1 ∧ (0:ℝ) ≤ 2 ∧
      F.le (l2_norm (clip_gradient (F.fin 1) (F.fin 2) ([(3:ℝ)].map F.fin)) false)
        (F.fin 2) = true :=
  ⟨by norm_num, by norm_num,
    (clip_gradient_contraction [(3:ℝ)] 1 2 (by norm_num) (by norm_num)).2⟩

/-- Multiplication of finitely embedded reals. -/
theorem mul_fin_fin (a b : ℝ) : F.mul (F.fin a) (F.fin b) = F.fin (a * b) := rfl

/-- Addition of finitely embedded reals. -/
theorem add_fin_fin (a b : ℝ) : F.add (F.fin a) (F.fin b) = F.fin (a + b) := rfl

/-- Division of finitely embedded reals with a nonzero denominator. -/
theorem fdiv_fin_of_ne (a : ℝ) {b : ℝ} (h : b ≠ 0) :
    F.div (F.fin a) (F.fin b) = F.fin (a / b) := by
  rw [F.div, if_neg h]

/-- Logarithm of a finitely embedded positive real. -/
theorem flog_fin_of_pos {a : ℝ} (h : 0 < a) :
    F.log (F.fin a) = F.fin (Real.log a) := by
  rw [F.log, if_neg (not_lt.2 h.le), if_neg (ne_of_gt h)]

/-- The exponent clamp followed by `exp` on a finitely embedded real. -/
theorem fexp_clamp_fin (a : ℝ) :
    F.exp (if F.lt (F.fin 40) (F.fin a) then F.fin 40 else F.fin a) =
      F.fin (Real.exp (min a 40)) := by
  by_cases hlt : (40:ℝ) < a
  · rw [if_pos (by simpa [F.lt] using hlt), min_eq_right hlt.le]
    rfl
  · rw [if_neg (by simpa [F.lt] using hlt), min_eq_left (not_lt.1 hlt)]
    rfl

/-- On every pair whose 2x2 covariance matrix has nonzero determinant,
the floating-point loop-body computation stays finite and agrees with
the exact-real value `pair_density`. -/
theorem pair_density_fp_eq_fin (y mean1 mean2 var1 var2 cov0 : ℝ)
    (h : var1 * var2 - cov0 ^ 2 ≠ 0) :
    pair_density_fp y mean1 mean2 var1 var2 cov0 =
      F.fin (pair_density y mean1 mean2 var1 var2 cov0) := by
  simp only [pair_density_fp, pair_density]
  set D := (if var1 * var2 - cov0 ^ 2 < 0 then (1e-6:ℝ) else var1 * var2 - cov0 ^ 2)
    with hD
  have hdetpos : 0 < D := by
    rw [hD]
    by_cases hc : var1 * var2 - cov0 ^ 2 < 0
    · rw [if_pos hc]
      norm_num
    · rw [if_neg hc]
      exact lt_of_le_of_ne (not_lt.1 hc) (Ne.symm h)
  have hcpos : 0 < Real.sqrt (4 * Real.pi ^ 2 * D) :=
    Real.sqrt_pos.2 (mul_pos (by positivity) hdetpos)
  rw [fdiv_fin_of_ne 1 (ne_of_gt hdetpos)]
  simp only [mul_fin_fin, add_fin_fin]
  rw [sqrt_fin_of_nonneg (le_of_lt (mul_pos (by positivity) hdetpos)),
    fdiv_fin_of_ne 1 (ne_of_gt hcpos),
    flog_fin_of_pos (one_div_pos.2 hcpos)]
  simp only [mul_fin_fin, add_fin_fin]
  rw [fexp_clamp_fin]

/-- Counterexample to C5 as stated: at the exactly singular pair with
unit variances and unit cross-covariance (determinant 1*1 - 1^2 = 0,
which only the strict `< 0` check leaves unclamped — reachable through
duplicated Monte-Carlo points), the floating-point computation divides
one by zero, multiplies the resulting infinity by zero, and the
resulting NaN survives the exponent clamp: the pair's contribution is
NaN, neither finite nor non-negative. -/
theorem pair_density_singular_nan_cex :
    pair_density_fp 0 0 0 1 1 1 = F.nan ∧
      F.le (F.fin 0) (pair_density_fp 0 0 0 1 1 1) = false := by
  have h : pair_density_fp 0 0 0 1 1 1 = F.nan := by
    rw [pair_density_fp]
    norm_num [F.div, F.mul, F.add, F.lt, F.exp, F.log, F.sqrt, Real.sqrt_zero]
  exact ⟨h, by rw [h]; rfl⟩

/-- C5 (amended): for every pair in the posterior-variance double loop
whose 2x2 covariance matrix has NONZERO determinant — including negative
determinants (clamped to the 1e-6 floor with the 0.95 cross-covariance
shrink, e.g. the synthetic pair with unit variances and cross-covariance
1.5) and pairs producing large exponent arguments (clamped at 40) — the
floating-point computation raises no exception and produces the finite
value `pair_density`, which is strictly positive and bounded by exp(40)
at every diagonal support point. -/
theorem pair_contribution_positive_bounded_nonsingular
    (y mean1 mean2 var1 var2 cov0 : ℝ) (h : var1 * var2 - cov0 ^ 2 ≠ 0) :
    pair_density_fp y mean1 mean2 var1 var2 cov0 =
      F.fin (pair_density y mean1 mean2 var1 var2 cov0) ∧
    0 < pair_density y mean1 mean2 var1 var2 cov0 ∧
    pair_density y mean1 mean2 var1 var2 cov0 ≤ Real.exp 40 := by
  refine ⟨pair_density_fp_eq_fin y mean1 mean2 var1 var2 cov0 h, ?_, ?_⟩
  · rw [pair_density]
    exact Real.exp_pos _
  · rw [pair_density]
    exact Real.exp_le_exp.2 (min_le_right _ _)

/-- Witness for C5 (amended) at the synthetic negative-determinant pair
with unit variances and cross-covariance 1.5. -/
theorem pair_contribution_positive_bounded_nonsingular_witness :
    ((1:ℝ) * 1 - (1.5:ℝ) ^ 2 ≠ 0) ∧
      pair_density_fp 0 0 0 1 1 1.5 = F.fin (pair_density 0 0 0 1 1 1.5) :=
  ⟨by norm_num,
    (pair_contribution_positive_bounded_nonsingular 0 0 0 1 1 1.5 (by norm_num)).1⟩

/-- Counterexample to C10 as stated: with the predictive-variance flag
set and zero Monte-Carlo evaluation points (fewer than two),
`compute_pyhf_statistics` does not complete without error: the posterior
mean step divides one by the point count and raises
`ZeroDivisionError`. -/
theorem compute_pyhf_statistics_empty_mc_error :
    compute_pyhf_statistics true [0] [] [] (fun _ _ => 0) none =
      Except.error "ZeroDivisionError" := rfl

/-- C10 (amended): with the predictive-variance flag set and EXACTLY ONE
Monte-Carlo evaluation point, the pairwise loop body never executes, so
`compute_pyhf_statistics` completes without error and leaves `p_yhf_var`
at its prior value. -/
theorem compute_pyhf_statistics_single_point (support : List ℝ) (m v : ℝ)
    (kp : ℕ → ℕ → ℝ) (prior : Option (List ℝ)) :
    ∃ p_yhf_mean, compute_pyhf_statistics true support [m] [v] kp prior =
      Except.ok (p_yhf_mean, prior) :=
  ⟨_, rfl⟩

/-- List-sum over a zipped pair of equal-length vectors as a sum over
indices. -/
theorem sum_map_zip_eq_range (ms : List ℝ) :
    ∀ (vs : List ℝ), ms.length = vs.length → ∀ (Fn : ℝ → ℝ → ℝ),
      ((ms.zip vs).map (fun mv => Fn mv.1 mv.2)).sum =
        ∑ i ∈ Finset.range ms.length, Fn (ms.getD i 0) (vs.getD i 0) := by
  induction ms with
  | nil =>
    intro vs h Fn
    simp
  | cons m ms' ih =>
    intro vs h Fn
    cases vs with
    | nil => simp at h
    | cons v vs' =>
      simp only [List.zip_cons_cons, List.map_cons, List.sum_cons, List.length_cons]
      rw [Finset.sum_range_succ']
      simp only [List.getD_cons_succ, List.getD_cons_zero]
      rw [ih vs' (by simpa using h) Fn]
      ring

/-- `getD` through `List.map` at an in-range index. -/
theorem getD_map_lt {α β : Type} (f : α → β) (l : List α) (j : ℕ)
    (hj : j < l.length) (d : α) (d' : β) :
    (l.map f).getD j d' = f (l.getD j d) := by
  simp only [List.getD_eq_getElem?_getD, List.getElem?_map,
    List.getElem?_eq_getElem hj, Option.map_some', Option.getD_some]

/-- C2: for n >= 1 Monte-Carlo evaluation points, the posterior mean
density over the support grid is, pointwise, 1/n times the sum over all
evaluation points of the Gaussian density with predicted mean and
standard deviation equal to the square root of the predicted
variance. -/
theorem p_yhf_mean_is_gaussian_mixture (support m_f_mc var_y_mc : List ℝ)
    (hn : m_f_mc.length ≠ 0) (hlen : m_f_mc.length = var_y_mc.length) :
    ∃ r, calculate_p_yhf_mean support m_f_mc var_y_mc = Except.ok r ∧
      r.length = support.length ∧
      ∀ j, j < support.length →
        r.getD j 0 = (1 / (m_f_mc.length : ℝ)) *
          ∑ i ∈ Finset.range m_f_mc.length,
            norm_pdf (support.getD j 0) (m_f_mc.getD i 0)
              (Real.sqrt (var_y_mc.getD i 0)) := by
  rw [calculate_p_yhf_mean, if_neg hn]
  refine ⟨_, rfl, by simp, ?_⟩
  intro j hj
  rw [getD_map_lt _ support j hj 0]
  congr 1
  exact sum_map_zip_eq_range m_f_mc var_y_mc hlen
    (fun a b => norm_pdf (support.getD j 0) a (Real.sqrt b))

/-- Witness for C2 at one evaluation point and one support point. -/
theorem p_yhf_mean_is_gaussian_mixture_witness :
    ([(0:ℝ)] : List ℝ).length ≠ 0 ∧
      ∃ r, calculate_p_yhf_mean [(0:ℝ)] [(0:ℝ)] [(1:ℝ)] = Except.ok r ∧
        r.length = ([(0:ℝ)] : List ℝ).length :=
  ⟨by simp,
    match p_yhf_mean_is_gaussian_mixture [(0:ℝ)] [(0:ℝ)] [(1:ℝ)] (by simp) rfl with
    | ⟨r, h1, h2, _⟩ => ⟨r, h1, h2⟩⟩

/-- Componentwise addition of two maps over the same support. -/
theorem zipWith_add_map_map (l : List ℝ) (f g : ℝ → ℝ) :
    List.zipWith (· + ·) (l.map f) (l.map g) = l.map (fun y => f y + g y) := by
  induction l with
  | nil => rfl
  | cons a t ih => simp [ih]

/-- The inner pairwise loop accumulates the density contributions of its
pair list onto the grid and advances the pair counter by the number of
pairs processed. -/
theorem var_inner_loop_spec (support : List ℝ) (kp : ℕ → ℕ → ℝ)
    (pmean : List ℝ) (num1 : ℕ) (mean1 var1 : ℝ) :
    ∀ (ps : List (ℕ × (ℝ × ℝ))) (G : ℝ → ℝ) (i0 : ℕ) (pv : Option (List ℝ)),
      ∃ pv', var_inner_loop support kp pmean num1 mean1 var1 ps
          ⟨support.map G, i0, pv⟩ =
        ⟨support.map (fun y => G y +
            (ps.map (fun p =>
              pair_density y mean1 p.2.1 var1 p.2.2 (kp num1 (num1 + p.1)))).sum),
          i0 + ps.length, pv'⟩ := by
  intro ps
  induction ps with
  | nil =>
    intro G i0 pv
    refine ⟨pv, ?_⟩
    simp [var_inner_loop]
  | cons p rest ih =>
    intro G i0 pv
    obtain ⟨j, m2, v2⟩ := p
    rw [var_inner_loop]
    have hz : List.zipWith (· + ·)
        (VarLoopState.yhf_pdf_grid ⟨support.map G, i0, pv⟩)
        (support.map (fun y => pair_density y mean1 m2 var1 v2 (kp num1 (num1 + j)))) =
        support.map (fun y => G y + pair_density y mean1 m2 var1 v2 (kp num1 (num1 + j))) :=
      zipWith_add_map_map support G _
    rw [hz]
    obtain ⟨pv', hpv⟩ := ih
      (fun y => G y + pair_density y mean1 m2 var1 v2 (kp num1 (num1 + j))) (i0 + 1)
      (some (List.zipWith
        (fun g m => 1 / (((i0 + 1 : ℕ) : ℝ) - 1) * g - 0.9995 * m ^ 2)
        (support.map (fun y => G y + pair_density y mean1 m2 var1 v2 (kp num1 (num1 + j))))
        pmean))
    refine ⟨pv', ?_⟩
    rw [hpv]
    refine congrArg₂ (fun a b => VarLoopState.mk a b pv') ?_ ?_
    · refine List.map_congr_left ?_
      intro y _
      simp only [List.map_cons, List.sum_cons]
      ring
    · simp only [List.length_cons]
      omega

/-- The inner pairwise loop preserves the running-state form of
`p_yhf_var`. -/
theorem var_inner_loop_inv (support : List ℝ) (kp : ℕ → ℕ → ℝ)
    (pmean : List ℝ) (num1 : ℕ) (mean1 var1 : ℝ) :
    ∀ (ps : List (ℕ × (ℝ × ℝ))) (st : VarLoopState),
      st.p_yhf_var = some (List.zipWith
        (fun g m => 1 / ((st.i : ℝ) - 1) * g - 0.9995 * m ^ 2)
        st.yhf_pdf_grid pmean) →
      (var_inner_loop support kp pmean num1 mean1 var1 ps st).p_yhf_var =
        some (List.zipWith
          (fun g m =>
            1 / (((var_inner_loop support kp pmean num1 mean1 var1 ps st).i : ℝ) - 1) * g -
              0.9995 * m ^ 2)
          (var_inner_loop support kp pmean num1 mean1 var1 ps st).yhf_pdf_grid pmean) := by
  intro ps
  induction ps with
  | nil =>
    intro st h
    simpa [var_inner_loop] using h
  | cons p rest ih =>
    intro st h
    obtain ⟨j, m2, v2⟩ := p
    rw [var_inner_loop]
    exact ih _ rfl

/-- A non-empty inner pair list establishes the running-state form of
`p_yhf_var`, whatever the incoming state held. -/
theorem var_inner_loop_inv_established (support : List ℝ) (kp : ℕ → ℕ → ℝ)
    (pmean : List ℝ) (num1 : ℕ) (mean1 var1 : ℝ)
    (p : ℕ × (ℝ × ℝ)) (rest : List (ℕ × (ℝ × ℝ))) (st : VarLoopState) :
    (var_inner_loop support kp pmean num1 mean1 var1 (p :: rest) st).p_yhf_var =
      some (List.zipWith
        (fun g m =>
          1 / (((var_inner_loop support kp pmean num1 mean1 var1 (p :: rest) st).i : ℝ) - 1) * g -
            0.9995 * m ^ 2)
        (var_inner_loop support kp pmean num1 mean1 var1 (p :: rest) st).yhf_pdf_grid pmean) := by
  obtain ⟨j, m2, v2⟩ := p
  rw [var_inner_loop]
  exact var_inner_loop_inv support kp pmean num1 mean1 var1 rest _ rfl

/-- The outer loop preserves the running-state form of `p_yhf_var`. -/
theorem var_outer_loop_inv (support : List ℝ) (kp : ℕ → ℕ → ℝ)
    (pmean f_mean yhf_var : List ℝ) :
    ∀ (entries : List (ℕ × (ℝ × ℝ))) (st : VarLoopState),
      st.p_yhf_var = some (List.zipWith
        (fun g m => 1 / ((st.i : ℝ) - 1) * g - 0.9995 * m ^ 2)
        st.yhf_pdf_grid pmean) →
      (var_outer_loop support kp pmean f_mean yhf_var entries st).p_yhf_var =
        some (List.zipWith
          (fun g m =>
            1 / (((var_outer_loop support kp pmean f_mean yhf_var entries st).i : ℝ) - 1) * g -
              0.9995 * m ^ 2)
          (var_outer_loop support kp pmean f_mean yhf_var entries st).yhf_pdf_grid pmean) := by
  intro entries
  induction entries with
  | nil =>
    intro st h
    simpa [var_outer_loop] using h
  | cons e rest ih =>
    intro st h
    obtain ⟨num1, m1, v1⟩ := e
    rw [var_outer_loop]
    exact ih _ (var_inner_loop_inv support kp pmean num1 m1 v1 _ st h)

/-- Sum over an enumerated zip of equal-length vectors as a sum over
indices. -/
theorem sum_map_enum_zip (Fn : ℕ → ℝ → ℝ → ℝ) :
    ∀ (l1 l2 : List ℝ), l1.length = l2.length → ∀ (k : ℕ),
      ((List.enumFrom k (l1.zip l2)).map (fun p => Fn p.1 p.2.1 p.2.2)).sum =
        ∑ j ∈ Finset.range l1.length, Fn (k + j) (l1.getD j 0) (l2.getD j 0) := by
  intro l1
  induction l1 with
  | nil =>
    intro l2 h k
    simp
  | cons a t ih =>
    intro l2 h k
    cases l2 with
    | nil => simp at h
    | cons b t2 =>
      simp only [List.zip_cons_cons, List.enumFrom_cons, List.map_cons,
        List.sum_cons, List.length_cons]
      rw [Finset.sum_range_succ']
      simp only [List.getD_cons_succ, List.getD_cons_zero, Nat.add_zero]
      rw [ih t2 (by simpa using h) (k + 1)]
      rw [Finset.sum_congr rfl
        (fun j _ => by rw [show k + 1 + j = k + (j + 1) from by omega])]
      ring

/-- Sum of the inner-loop pair counts. -/
theorem sum_tail_counts (n : ℕ) :
    ∑ a ∈ Finset.range n, (n - (a + 1)) = n * (n - 1) / 2 := by
  have h1 : ∑ a ∈ Finset.range n, (n - (a + 1)) =
      ∑ a ∈ Finset.range n, (n - 1 - a) := by
    refine Finset.sum_congr rfl ?_
    intro a _
    omega
  have h2 := Finset.sum_range_reflect (fun i => i) n
  simp only [] at h2
  rw [h1, h2, Finset.sum_range_id]

/-- The outer loop, started at outer index `k` on the enumerated tail of
the prediction pairs, adds all remaining pair contributions to the grid
and all remaining pair counts to the counter. -/
theorem var_outer_loop_spec (support : List ℝ) (kp : ℕ → ℕ → ℝ)
    (pmean f_mean yhf_var : List ℝ) (n : ℕ)
    (hf : f_mean.length = n) (hv : yhf_var.length = n) :
    ∀ (l : List (ℝ × ℝ)) (k : ℕ), (f_mean.zip yhf_var).drop k = l →
      ∀ (G : ℝ → ℝ) (i0 : ℕ) (pv : Option (List ℝ)),
      (var_outer_loop support kp pmean f_mean yhf_var (List.enumFrom k l)
          ⟨support.map G, i0, pv⟩).yhf_pdf_grid =
        support.map (fun y => G y + ∑ a ∈ Finset.Ico k n,
          ∑ j ∈ Finset.range (n - (a + 1)),
            pair_density y (f_mean.getD a 0) (f_mean.getD (a + 1 + j) 0)
              (yhf_var.getD a 0) (yhf_var.getD (a + 1 + j) 0) (kp a (a + j))) ∧
      (var_outer_loop support kp pmean f_mean yhf_var (List.enumFrom k l)
          ⟨support.map G, i0, pv⟩).i =
        i0 + ∑ a ∈ Finset.Ico k n, (n - (a + 1)) := by
  have hzlen : (f_mean.zip yhf_var).length = n := by
    rw [List.length_zip, hf, hv, min_self]
  intro l
  induction l with
  | nil =>
    intro k hk G i0 pv
    have hnk : n ≤ k := by
      have hlk := congrArg List.length hk
      simp only [List.length_drop, hzlen, List.length_nil] at hlk
      omega
    have hempty : Finset.Ico k n = ∅ := Finset.Ico_eq_empty (by omega)
    rw [hempty]
    simp [var_outer_loop]
  | cons e rest ih =>
    intro k hk G i0 pv
    have hkn : k < n := by
      have hlk := congrArg List.length hk
      simp only [List.length_drop, hzlen, List.length_cons] at hlk
      omega
    have hkf : k < f_mean.length := by omega
    have hkv : k < yhf_var.length := by omega
    have hkz : k < (f_mean.zip yhf_var).length := by omega
    obtain ⟨e1, e2⟩ := e
    have he : (e1, e2) = (f_mean.getD k 0, yhf_var.getD k 0) := by
      have h0 := List.getElem?_drop (f_mean.zip yhf_var) k 0
      rw [hk] at h0
      simp only [List.getElem?_cons_zero, Nat.add_zero,
        List.getElem?_eq_getElem hkz] at h0
      have h1 : (f_mean.zip yhf_var)[k] = (f_mean[k], yhf_var[k]) :=
        List.getElem_zip
      rw [h1] at h0
      have h2 : f_mean.getD k 0 = f_mean[k] := by
        simp [List.getD_eq_getElem?_getD, List.getElem?_eq_getElem hkf]
      have h3 : yhf_var.getD k 0 = yhf_var[k] := by
        simp [List.getD_eq_getElem?_getD, List.getElem?_eq_getElem hkv]
      rw [h2, h3]
      exact Option.some.inj h0
    have hrest : (f_mean.zip yhf_var).drop (k + 1) = rest := by
      rw [← List.tail_drop, hk]
      rfl
    rw [List.enumFrom_cons, var_outer_loop]
    have hplen : ((f_mean.drop (k + 1)).zip (yhf_var.drop (k + 1))).length =
        n - (k + 1) := by
      rw [List.length_zip, List.length_drop, List.length_drop, hf, hv, min_self]
    obtain ⟨pv', hinner⟩ := var_inner_loop_spec support kp pmean k e1 e2
      (List.enum ((f_mean.drop (k + 1)).zip (yhf_var.drop (k + 1)))) G i0 pv
    rw [hinner]
    have hsum1 : ∀ y : ℝ,
        ((List.enum ((f_mean.drop (k + 1)).zip (yhf_var.drop (k + 1)))).map
          (fun p => pair_density y e1 p.2.1 e2 p.2.2 (kp k (k + p.1)))).sum =
        ∑ j ∈ Finset.range (n - (k + 1)),
          pair_density y (f_mean.getD k 0) (f_mean.getD (k + 1 + j) 0)
            (yhf_var.getD k 0) (yhf_var.getD (k + 1 + j) 0) (kp k (k + j)) := by
      intro y
      rw [List.enum_eq_enumFrom]
      have := sum_map_enum_zip
        (fun i a b => pair_density y e1 a e2 b (kp k (k + i)))
        (f_mean.drop (k + 1)) (yhf_var.drop (k + 1))
        (by rw [List.length_drop, List.length_drop, hf, hv]) 0
      rw [this]
      rw [List.length_drop, hf]
      refine Finset.sum_congr rfl ?_
      intro j _
      have hd1 : (f_mean.drop (k + 1)).getD j 0 = f_mean.getD (k + 1 + j) 0 := by
        simp [List.getD_eq_getElem?_getD, List.getElem?_drop]
      have hd2 : (yhf_var.drop (k + 1)).getD j 0 = yhf_var.getD (k + 1 + j) 0 := by
        simp [List.getD_eq_getElem?_getD, List.getElem?_drop]
      rw [hd1, hd2, Nat.zero_add]
      have he1 : e1 = f_mean.getD k 0 := by injection he
      have he2 : e2 = yhf_var.getD k 0 := by injection he
      rw [he1, he2]
    obtain ⟨hg, hi⟩ := ih (k + 1) hrest
      (fun y => G y +
        ((List.enum ((f_mean.drop (k + 1)).zip (yhf_var.drop (k + 1)))).map
          (fun p => pair_density y e1 p.2.1 e2 p.2.2 (kp k (k + p.1)))).sum)
      (i0 + (List.enum ((f_mean.drop (k + 1)).zip (yhf_var.drop (k + 1)))).length)
      pv'
    refine ⟨?_, ?_⟩
    · rw [hg]
      refine List.map_congr_left ?_
      intro y _
      rw [hsum1 y]
      rw [Finset.sum_eq_sum_Ico_succ_bot hkn]
      ring
    · rw [hi]
      have hel : (List.enum ((f_mean.drop (k + 1)).zip (yhf_var.drop (k + 1)))).length =
          n - (k + 1) := by
        rw [List.enum_eq_enumFrom, List.enumFrom_length, hplen]
      rw [hel, Finset.sum_eq_sum_Ico_succ_bot hkn]
      omega

/-- C1: with at least two Monte-Carlo evaluation points, after the
pairwise double loop completes, `p_yhf_var` holds exactly
`1/(total number of pairs)` times the accumulated sum over all pairs of
the clamped bivariate-normal densities at the diagonal support points,
minus `0.9995` times the square of the posterior mean density (this is
the value left by the last executed loop body, which assigns the same
running form after every pair). -/
theorem p_yhf_var_final_form (support f_mean yhf_var pmean : List ℝ)
    (kp : ℕ → ℕ → ℝ) (pv0 : Option (List ℝ)) (n : ℕ)
    (hf : f_mean.length = n) (hv : yhf_var.length = n) (hn : 2 ≤ n) :
    calculate_p_yhf_var support f_mean yhf_var kp pmean pv0 =
      some (List.zipWith
        (fun y m => 1 / ((n * (n - 1) / 2 : ℕ) : ℝ) *
          (∑ num1 ∈ Finset.range n, ∑ j ∈ Finset.range (n - (num1 + 1)),
            pair_density y (f_mean.getD num1 0) (f_mean.getD (num1 + 1 + j) 0)
              (yhf_var.getD num1 0) (yhf_var.getD (num1 + 1 + j) 0)
              (kp num1 (num1 + j))) -
          0.9995 * m ^ 2)
        support pmean) := by
  have hzlen : (f_mean.zip yhf_var).length = n := by
    rw [List.length_zip, hf, hv, min_self]
  rw [calculate_p_yhf_var, List.enum_eq_enumFrom]
  obtain ⟨hg, hi⟩ := var_outer_loop_spec support kp pmean f_mean yhf_var n hf hv
    (f_mean.zip yhf_var) 0 (List.drop_zero _) (fun _ => 0) 1 pv0
  have hinv : (var_outer_loop support kp pmean f_mean yhf_var
      (List.enumFrom 0 (f_mean.zip yhf_var))
      ⟨support.map (fun _ => (0:ℝ)), 1, pv0⟩).p_yhf_var =
      some (List.zipWith
        (fun g m =>
          1 / (((var_outer_loop support kp pmean f_mean yhf_var
            (List.enumFrom 0 (f_mean.zip yhf_var))
            ⟨support.map (fun _ => (0:ℝ)), 1, pv0⟩).i : ℝ) - 1) * g -
            0.9995 * m ^ 2)
        (var_outer_loop support kp pmean f_mean yhf_var
          (List.enumFrom 0 (f_mean.zip yhf_var))
          ⟨support.map (fun _ => (0:ℝ)), 1, pv0⟩).yhf_pdf_grid pmean) := by
    rcases hz : f_mean.zip yhf_var with _ | ⟨⟨e1, e2⟩, zrest⟩
    · exfalso
      rw [hz] at hzlen
      simp at hzlen
      omega
    · rw [List.enumFrom_cons, var_outer_loop]
      apply var_outer_loop_inv
      have hplen : (List.enum ((f_mean.drop (0 + 1)).zip (yhf_var.drop (0 + 1)))).length =
          n - 1 := by
        rw [List.enum_eq_enumFrom, List.enumFrom_length, List.length_zip,
          List.length_drop, List.length_drop, hf, hv, min_self]
      rcases hp : List.enum ((f_mean.drop (0 + 1)).zip (yhf_var.drop (0 + 1))) with _ | ⟨q, qrest⟩
      · exfalso
        rw [hp] at hplen
        simp at hplen
        omega
      · exact var_inner_loop_inv_established support kp pmean 0 e1 e2 q qrest _
  rw [hinv, hi, hg]
  congr 1
  rw [List.zipWith_map_left]
  have hP : ∑ a ∈ Finset.Ico 0 n, (n - (a + 1)) = n * (n - 1) / 2 := by
    rw [← Finset.range_eq_Ico]
    exact sum_tail_counts n
  have hfun : (fun (a : ℝ) (b : ℝ) =>
      (fun g m => 1 / (((1 + ∑ a ∈ Finset.Ico 0 n, (n - (a + 1)) : ℕ) : ℝ) - 1) * g -
        0.9995 * m ^ 2)
        ((fun y => 0 + ∑ a ∈ Finset.Ico 0 n,
          ∑ j ∈ Finset.range (n - (a + 1)),
            pair_density y (f_mean.getD a 0) (f_mean.getD (a + 1 + j) 0)
              (yhf_var.getD a 0) (yhf_var.getD (a + 1 + j) 0) (kp a (a + j))) a) b) =
      (fun y m => 1 / ((n * (n - 1) / 2 : ℕ) : ℝ) *
        (∑ num1 ∈ Finset.range n, ∑ j ∈ Finset.range (n - (num1 + 1)),
          pair_density y (f_mean.getD num1 0) (f_mean.getD (num1 + 1 + j) 0)
            (yhf_var.getD num1 0) (yhf_var.getD (num1 + 1 + j) 0)
            (kp num1 (num1 + j))) -
        0.9995 * m ^ 2) := by
    funext y m
    simp only []
    rw [hP, ← Finset.range_eq_Ico]
    push_cast
    ring
  rw [hfun]

/-- Witness for C1 with two Monte-Carlo points. -/
theorem p_yhf_var_final_form_witness :
    (([(0:ℝ), 0] : List ℝ).length = 2 ∧ 2 ≤ 2) ∧
      ∃ r, calculate_p_yhf_var [(0:ℝ)] [(0:ℝ), 0] [(1:ℝ), 1]
        (fun _ _ => 0) [(0:ℝ)] none = some r :=
  ⟨⟨rfl, by decide⟩,
    ⟨_, p_yhf_var_final_form [(0:ℝ)] [(0:ℝ), 0] [(1:ℝ), 1] [(0:ℝ)]
      (fun _ _ => 0) none 2 rfl rfl (by decide)⟩⟩

/-- Characterization of `List.findIdx?`: a found index points at the
first element satisfying the predicate. -/
theorem findIdx?_some_spec {α : Type} (p : α → Bool) :
    ∀ (l : List α) (s i : ℕ), List.findIdx? p l s = some i →
      ∃ j, i = s + j ∧ (∃ a, l[j]? = some a ∧ p a = true) ∧
        ∀ j', j' < j → ∀ b, l[j']? = some b → p b = false := by
  intro l
  induction l with
  | nil =>
    intro s i h
    simp [List.findIdx?] at h
  | cons x xs ih =>
    intro s i h
    rw [List.findIdx?_cons] at h
    by_cases hx : p x = true
    · rw [if_pos hx] at h
      obtain rfl : s = i := Option.some.inj h
      refine ⟨0, by omega, ⟨x, by simp, hx⟩, ?_⟩
      intro j' hj'
      exact absurd hj' (Nat.not_lt_zero _)
    · rw [if_neg hx] at h
      obtain ⟨j, hij, ⟨a, haj, hpa⟩, hmin⟩ := ih (s + 1) i h
      refine ⟨j + 1, by omega, ⟨a, by simpa using haj, hpa⟩, ?_⟩
      intro j' hj' b hb
      cases j' with
      | zero =>
        obtain rfl : x = b := by simpa using hb
        simpa using hx
      | succ j'' =>
        exact hmin j'' (by omega) b (by simpa using hb)

/-- Behaviour of the reference-data matching of `get_hf_training_data`
when every training row occurs in the Monte-Carlo input set and the
reference output vector is long enough: it succeeds, and each training
row is matched to the reference output at the FIRST index of `X_mc`
whose row equals it. -/
theorem match_training_rows_spec (X_mc : List (List ℝ)) (yhf : List ℝ)
    (hlen : X_mc.length ≤ yhf.length) :
    ∀ (xt : List (List ℝ)), (∀ row ∈ xt, row ∈ X_mc) →
      ∃ ys, match_training_rows X_mc yhf xt = Except.ok ys ∧
        ys.length = xt.length ∧
        ∀ i, i < xt.length → ∃ idx, idx < X_mc.length ∧
          X_mc.getD idx [] = xt.getD i [] ∧
          (∀ j, j < idx → X_mc.getD j [] ≠ xt.getD i []) ∧
          ys.getD i 0 = yhf.getD idx 0 := by
  intro xt
  induction xt with
  | nil =>
    intro _
    exact ⟨[], rfl, rfl, fun i hi => absurd hi (by simp)⟩
  | cons row rest ih =>
    intro hmem
    have hrow : row ∈ X_mc := hmem row (List.mem_cons_self row rest)
    rcases hfi : X_mc.findIdx? (fun r => decide (r = row)) with _ | idx
    · exfalso
      rw [List.findIdx?_eq_none_iff] at hfi
      have := hfi row hrow
      simp at this
    · obtain ⟨j, hij, ⟨a, haj, hpa⟩, hmin⟩ := findIdx?_some_spec _ X_mc 0 idx hfi
      obtain rfl : idx = j := by omega
      obtain rfl : a = row := of_decide_eq_true hpa
      have hjlt : idx < X_mc.length := by
        by_contra hge
        rw [List.getElem?_eq_none (by omega)] at haj
        cases haj
      have hjy : idx < yhf.length := lt_of_lt_of_le hjlt hlen
      have hyget : yhf.get? idx = some (yhf.getD idx 0) := by
        rw [List.get?_eq_getElem?, List.getElem?_eq_getElem hjy]
        simp [List.getD_eq_getElem?_getD, List.getElem?_eq_getElem hjy]
      obtain ⟨ys, hys, hlen2, hspec⟩ := ih (fun r hr => hmem r (List.mem_cons_of_mem _ hr))
      refine ⟨yhf.getD idx 0 :: ys, ?_, by simp [hlen2], ?_⟩
      · rw [match_training_rows, hfi]
        simp only []
        rw [hyget, hys]
        rfl
      · intro i hi
        cases i with
        | zero =>
          refine ⟨idx, hjlt, ?_, ?_, by simp⟩
          · simp [List.getD_eq_getElem?_getD, haj]
          · intro j2 hj2
            have hj2l : j2 < X_mc.length := lt_trans hj2 hjlt
            have hfalse := hmin j2 hj2 (X_mc.getD j2 [])
              (by simp [List.getD_eq_getElem?_getD, List.getElem?_eq_getElem hj2l])
            simp only [decide_eq_false_iff_not] at hfalse
            simpa using hfalse
        | succ i' =>
          obtain ⟨idx2, h1, h2, h3, h4⟩ := hspec i' (by simpa using hi)
          exact ⟨idx2, h1, by simpa using h2, by simpa using h3, by simpa using h4⟩

/-- C8: with a non-None training input, `get_hf_training_data` raises an
error exactly when not exactly one of the high-fidelity model and the
reference Monte-Carlo outputs is available, and, when only the reference
data is available (with every training row an exact row of the
Monte-Carlo inputs and enough reference outputs), each training output is
the reference output at the first index of `X_mc` whose row equals the
training row. -/
theorem get_hf_training_data_sources (xt X_mc : List (List ℝ))
    (Y_HF_mc : Option (List ℝ)) (model : Option (List (List ℝ) → List ℝ))
    (hdata : ∀ yhf ∈ Y_HF_mc,
      (∀ row ∈ xt, row ∈ X_mc) ∧ X_mc.length ≤ yhf.length) :
    ((∃ e, get_hf_training_data (some xt) X_mc Y_HF_mc model = Except.error e) ↔
      ¬((model.isSome = true ∧ Y_HF_mc = none) ∨
        (model = none ∧ Y_HF_mc.isSome = true))) ∧
    ∀ yhf, Y_HF_mc = some yhf → model = none →
      ∃ ys, get_hf_training_data (some xt) X_mc Y_HF_mc model = Except.ok ys ∧
        ys.length = xt.length ∧
        ∀ i, i < xt.length → ∃ idx, idx < X_mc.length ∧
          X_mc.getD idx [] = xt.getD i [] ∧
          (∀ j, j < idx → X_mc.getD j [] ≠ xt.getD i []) ∧
          ys.getD i 0 = yhf.getD idx 0 := by
  cases model with
  | some m =>
    cases Y_HF_mc with
    | none =>
      refine ⟨by simp [get_hf_training_data], ?_⟩
      intro yhf h
      cases h
    | some yhf =>
      refine ⟨by simp [get_hf_training_data], ?_⟩
      intro yhf' _ h2
      cases h2
  | none =>
    cases Y_HF_mc with
    | none =>
      refine ⟨by simp [get_hf_training_data], ?_⟩
      intro yhf h
      cases h
    | some yhf =>
      obtain ⟨hrows, hlen⟩ := hdata yhf rfl
      obtain ⟨ys, hys, hl, hsp⟩ := match_training_rows_spec X_mc yhf hlen xt hrows
      have hred : get_hf_training_data (some xt) X_mc (some yhf) none =
          match_training_rows X_mc yhf xt := rfl
      constructor
      · constructor
        · rintro ⟨e, he⟩
          rw [hred, hys] at he
          cases he
        · intro hcon
          exact absurd (Or.inr ⟨rfl, rfl⟩) hcon
      · intro yhf' h1 _
        obtain rfl : yhf = yhf' := by injection h1
        exact ⟨ys, by rw [hred]; exact hys, hl, hsp⟩

/-- Witness for C8: reference data available, no high-fidelity model,
with the training row an exact row of the Monte-Carlo input set. -/
theorem get_hf_training_data_sources_witness :
    (∀ yhf ∈ (some [(5:ℝ), 6] : Option (List ℝ)),
      (∀ row ∈ ([[(0:ℝ)]] : List (List ℝ)), row ∈ ([[(0:ℝ)], [1]] : List (List ℝ))) ∧
        ([[(0:ℝ)], [1]] : List (List ℝ)).length ≤ yhf.length) ∧
    ((∃ e, get_hf_training_data (some [[(0:ℝ)]]) [[(0:ℝ)], [1]]
        (some [(5:ℝ), 6]) none = Except.error e) ↔
      ¬(((none : Option (List (List ℝ) → List ℝ)).isSome = true ∧
          (some [(5:ℝ), 6] : Option (List ℝ)) = none) ∨
        ((none : Option (List (List ℝ) → List ℝ)) = none ∧
          (some [(5:ℝ), 6] : Option (List ℝ)).isSome = true))) := by
  have hd : ∀ yhf ∈ (some [(5:ℝ), 6] : Option (List ℝ)),
      (∀ row ∈ ([[(0:ℝ)]] : List (List ℝ)), row ∈ ([[(0:ℝ)], [1]] : List (List ℝ))) ∧
        ([[(0:ℝ)], [1]] : List (List ℝ)).length ≤ yhf.length := by
    intro yhf h
    have h' : some [(5:ℝ), 6] = some yhf := h
    obtain rfl : [(5:ℝ), 6] = yhf := by injection h'
    refine ⟨?_, by simp⟩
    intro row hr
    obtain rfl : row = [(0:ℝ)] := by simpa using hr
    simp
  exact ⟨hd, (get_hf_training_data_sources [[(0:ℝ)]] [[(0:ℝ)], [1]]
    (some [(5:ℝ), 6]) none hd).1⟩
